import Mathlib

/-!
Verification of the blog data model in `modules/blog/models.py`.

The Django models are shallowly embedded: each model class becomes a Lean
structure holding the fields relevant to the verified properties, the stored
database state becomes explicit lists of rows, manager querysets become list
filters, and `Meta.ordering` declarations become explicit comparators built
from the declared field list.
-/

namespace Blog

/-- Row of the `Article` model (`app_articles`): the fields used by the
ordering, the status filters, slug handling and the rating aggregate. -/
structure Article where
  id : Nat
  title : String
  slug : String
  status : String
  time_create : Nat
  fixed : Bool
  category : Nat
  deriving Repr, DecidableEq

/-- Row of the `Category` model (`app_categories`): `parent` is the nullable
self-reference of the MPTT tree (`on_delete=CASCADE`). -/
structure Category where
  id : Nat
  title : String
  slug : String
  parent : Option Nat
  deriving Repr, DecidableEq

/-- Row of the `Comment` model (`app_comments`): `article` is the owning
article (`on_delete=CASCADE`), `parent` the nullable self-reference. -/
structure Comment where
  id : Nat
  article : Nat
  author : Nat
  content : String
  time_create : Nat
  status : String
  parent : Option Nat
  deriving Repr, DecidableEq

/-- Row of the `Rating` model: `value` is +1 (like) or -1 (dislike),
`article` has `on_delete=CASCADE`, and `Meta.unique_together` constrains
`(article, ip_address)`. -/
structure Rating where
  id : Nat
  article : Nat
  user : Option Nat
  value : Int
  ip_address : String
  time_create : Nat
  deriving Repr, DecidableEq

/-- Row of the `ViewCount` model: one row per recorded view,
`article` has `on_delete=CASCADE`. -/
structure ViewCount where
  id : Nat
  article : Nat
  ip_address : String
  viewed_on : Nat
  deriving Repr, DecidableEq

/-- Comparison of one `-field` entry of a Django `Meta.ordering` list:
descending order, so the larger value comes first (`lt` = comes before). -/
def cmpDesc (x y : Nat) : Ordering := compare y x

/-- Numeric value Django uses when ordering a boolean column
(`False` = 0, `True` = 1). -/
def boolVal (b : Bool) : Nat := if b then 1 else 0

/-- The comparator declared by `Article.Meta.ordering = ['-time_create',
'-fixed']`: first key `time_create` descending, tie broken by `fixed`
descending. -/
def articleCmp (a b : Article) : Ordering :=
  match cmpDesc a.time_create b.time_create with
  | Ordering.eq => cmpDesc (boolVal a.fixed) (boolVal b.fixed)
  | o => o

/-- `a` strictly precedes `b` in the default ordering of articles. -/
def articleBefore (a b : Article) : Bool := articleCmp a b == Ordering.lt

/-- Whether a status string is the `published` member of `STATUS_OPTIONS`. -/
def isPublished (a : Article) : Bool := a.status == "published"

namespace ArticleManager

/-- `ArticleManager.all`: the listing queryset.  `select_related` and
`prefetch_related` only control eager loading; the result set is
`filter(status='published')` over the stored articles. -/
def all (store : List Article) : List Article :=
  store.filter isPublished

/-- `ArticleManager.detail`: the detail queryset; the same
`filter(status='published')` over the stored articles, with different
prefetching. -/
def detail (store : List Article) : List Article :=
  store.filter isPublished

end ArticleManager

/-- Length of the longest slug among a list of stored slugs. -/
def maxSlugLen (slugs : List String) : Nat :=
  slugs.foldr (fun s m => max s.length m) 0

/-- Modelled from the spec: `unique_slugify` lives in
`modules/services/utils`, which is not part of this source tree.  Per the
spec it derives a URL-safe slug for the article from its title, with the
contract that the result is non-empty and unique among the existing article
slugs; collision resolution is left to the utility.  The model keeps a
non-colliding title verbatim and otherwise disambiguates by appending a
suffix long enough to exceed every stored slug. -/
def unique_slugify (existing : List String) (title : String) : String :=
  let base := if title = "" then "article" else title
  if existing.contains base then
    base ++ String.mk (List.replicate (maxSlugLen existing + 1) 'x')
  else base

/-- Insertion of an article row, subject to the `unique=True` constraint on
`slug`: a duplicate slug rejects the insertion and leaves the store
unchanged. -/
def insertArticle (store : List Article) (a : Article) : Option (List Article) :=
  if (store.map Article.slug).contains a.slug then none
  else some (store ++ [a])

/-- `Article.save`: a blank slug is first filled by
`unique_slugify(self, self.title)`; the row is then stored through
`super().save`, i.e. `insertArticle`. -/
def Article.save (store : List Article) (a : Article) : Option (List Article) :=
  if a.slug = "" then
    insertArticle store
      { a with slug := unique_slugify (store.map Article.slug) a.title }
  else insertArticle store a

/-- `Article.get_sum_rating`: `sum([rating.value for rating in
self.ratings.all()])`, where `self.ratings` is the reverse relation of
`Rating.article`; recomputed from the stored ratings on every call. -/
def Article.get_sum_rating (ratings : List Rating) (a : Article) : Int :=
  ((ratings.filter (fun r => r.article == a.id)).map Rating.value).sum

/-- Whether a stored rating already occupies the `(article, ip_address)`
pair of `r` — the check enforced by `Rating.Meta.unique_together`. -/
def ratingConflict (store : List Rating) (r : Rating) : Bool :=
  store.any (fun s => s.article == r.article && s.ip_address == r.ip_address)

/-- Insertion of a rating row, subject to
`unique_together = ('article', 'ip_address')`: a duplicate pair rejects the
insertion and leaves the stored ratings unchanged. -/
def insertRating (store : List Rating) (r : Rating) : Option (List Rating) :=
  if ratingConflict store r then none else some (store ++ [r])

/-- The `(article, ip_address)` uniqueness invariant over stored ratings. -/
def atMostOnePerPair (store : List Rating) : Prop :=
  store.Pairwise
    (fun r s => r.article ≠ s.article ∨ r.ip_address ≠ s.ip_address)

/-- Cascade deletion of an article (`on_delete=CASCADE` on
`Comment.article`, `Rating.article` and `ViewCount.article`): the article
row and every dependent row referencing it are removed; nothing else is
touched. -/
def deleteArticleCascade (arts : List Article) (comments : List Comment)
    (ratings : List Rating) (views : List ViewCount) (i : Nat) :
    List Article × List Comment × List Rating × List ViewCount :=
  (arts.filter (fun a => a.id != i),
   comments.filter (fun c => c.article != i),
   ratings.filter (fun r => r.article != i),
   views.filter (fun v => v.article != i))

/-- Whether the parent of category `c` is among the already collected ids. -/
def parentIn (s : List Nat) (c : Category) : Bool :=
  match c.parent with
  | some p => s.contains p
  | none => false

/-- One step of Django's deletion collector on the category table: through
the `on_delete=CASCADE` of `Category.parent`, every stored category whose
parent is already collected and that is not collected yet is added. -/
def expandDoomed (cats : List Category) (s : List Nat) : List Nat :=
  s ++ ((cats.filter
    (fun c => parentIn s c && !(s.contains c.id))).map Category.id).dedup

/-- Iteration of the collector step. -/
def iterDoomed (cats : List Category) : Nat → List Nat → List Nat
  | 0, s => s
  | n + 1, s => iterDoomed cats n (expandDoomed cats s)

/-- The ids of the category rows Django's collector gathers when deleting
category `i`: the category itself and all of its descendants.  Iterating
one step more often than there are stored rows reaches the collector's
fixpoint. -/
def doomedIds (cats : List Category) (i : Nat) : List Nat :=
  iterDoomed cats (cats.length + 1) [i]

/-- Deletion of a category: the collected subtree would be removed, but
`on_delete=PROTECT` on `Article.category` rejects the deletion whenever
some article references a collected category, leaving everything
unchanged. -/
def deleteCategory (cats : List Category) (arts : List Article) (i : Nat) :
    Option (List Category) :=
  if arts.any (fun a => (doomedIds cats i).contains a.category) then none
  else some (cats.filter (fun c => !((doomedIds cats i).contains c.id)))

/-- `Desc cats root d` holds when `d` is the id of a strict descendant of
category `root` among the stored rows, following `parent` links. -/
inductive Desc (cats : List Category) (root : Nat) : Nat → Prop
  | child (c : Category) (hc : c ∈ cats) (hp : c.parent = some root) :
      Desc cats root c.id
  | step (c : Category) (m : Nat) (hd : Desc cats root m) (hc : c ∈ cats)
      (hp : c.parent = some m) : Desc cats root c.id

/-- The comparator declared by `Comment.Meta.ordering = ['-time_create']`:
creation time descending. -/
def commentCmp (a b : Comment) : Ordering :=
  cmpDesc a.time_create b.time_create

/-- `a` strictly precedes `b` in the default ordering of comments. -/
def commentBefore (a b : Comment) : Bool := commentCmp a b == Ordering.lt

/-- The declared default of the `status` column of `Article`
(`default='published'`). -/
def Article.defaultStatus : String := "published"

/-- The declared default of the `status` column of `Comment`
(`default='published'`). -/
def Comment.defaultStatus : String := "published"

/-- An article created without an explicit status: the `status` column takes
its declared default. -/
def mkArticleDefault (i : Nat) (title slug : String) (t : Nat) (fx : Bool)
    (cat : Nat) : Article :=
  Article.mk i title slug Article.defaultStatus t fx cat

/-- A comment created without an explicit status: the `status` column takes
its declared default. -/
def mkCommentDefault (i art auth : Nat) (content : String) (t : Nat)
    (par : Option Nat) : Comment :=
  Comment.mk i art auth content t Comment.defaultStatus par

end Blog

open Blog

theorem contains_true_iff {α : Type} [BEq α] [LawfulBEq α] (l : List α)
    (x : α) : l.contains x = true ↔ x ∈ l := by
  simp [List.contains]

theorem insertArticle_some {store store' : List Article} {a : Article}
    (h : insertArticle store a = some store') :
    store' = store ++ [a] ∧ a.slug ∉ store.map Article.slug := by
  unfold insertArticle at h
  by_cases hc : (store.map Article.slug).contains a.slug
  · rw [if_pos hc] at h
    exact absurd h (by simp)
  · rw [if_neg hc] at h
    refine ⟨(Option.some.inj h).symm, ?_⟩
    intro hmem
    exact hc ((contains_true_iff _ _).mpr hmem)

theorem insertArticle_of_not_mem {store : List Article} {a : Article}
    (h : a.slug ∉ store.map Article.slug) :
    insertArticle store a = some (store ++ [a]) := by
  have hc : ¬ ((store.map Article.slug).contains a.slug = true) := by
    intro hm
    exact h ((contains_true_iff _ _).mp hm)
  unfold insertArticle
  rw [if_neg hc]

theorem count_append_singleton {store : List Article} {a' : Article}
    (hnm : a'.slug ∉ store.map Article.slug) :
    ((store ++ [a']).map Article.slug).count a'.slug = 1 := by
  rw [List.map_append, List.count_append, List.count_eq_zero.mpr hnm]
  simp

theorem length_le_maxSlugLen {s : String} {slugs : List String}
    (h : s ∈ slugs) : s.length ≤ maxSlugLen slugs := by
  induction slugs with
  | nil => cases h
  | cons t ts ih =>
    rcases List.mem_cons.mp h with rfl | h
    · exact Nat.le_max_left _ _
    · exact Nat.le_trans (ih h) (Nat.le_max_right _ _)

theorem unique_slugify_not_mem (existing : List String) (title : String) :
    unique_slugify existing title ∉ existing := by
  unfold unique_slugify
  set base := if title = "" then "article" else title with hbase
  by_cases hc : existing.contains base
  · rw [if_pos hc]
    intro hmem
    have hlen := length_le_maxSlugLen hmem
    simp only [String.length_append, String.length_mk,
      List.length_replicate] at hlen
    omega
  · rw [if_neg hc]
    intro hmem
    exact hc ((contains_true_iff existing base).mpr hmem)

theorem unique_slugify_ne_empty (existing : List String) (title : String) :
    unique_slugify existing title ≠ "" := by
  unfold unique_slugify
  set base := if title = "" then "article" else title with hbase
  have hb : base ≠ "" := by
    rw [hbase]
    by_cases ht : title = "" <;> simp [ht]
  by_cases hc : existing.contains base
  · rw [if_pos hc]
    intro he
    have := congrArg String.length he
    simp only [String.length_append, String.length_mk,
      List.length_replicate, String.length_empty] at this
    omega
  · rw [if_neg hc]
    exact hb

/-- C1 counterexample: in the ordering declared by the code
(`['-time_create', '-fixed']`) a pinned article created at time 1 does NOT
precede a non-pinned article created at time 2 — the newer non-pinned one
comes first, refuting "pinned precedes non-pinned regardless of recency". -/
theorem C1_ordering_counterexample :
    (Article.mk 1 "old" "old" "published" 1 true 1).fixed = true ∧
    (Article.mk 2 "new" "new" "published" 2 false 1).fixed = false ∧
    articleBefore (Article.mk 1 "old" "old" "published" 1 true 1)
      (Article.mk 2 "new" "new" "published" 2 false 1) = false ∧
    articleBefore (Article.mk 2 "new" "new" "published" 2 false 1)
      (Article.mk 1 "old" "old" "published" 1 true 1) = true := by
  decide

/-- C1 (amended): the default ordering of articles is by creation time
descending, and the pinned flag decides precedence only between articles
with equal creation time: `a` precedes `b` exactly when `a` is newer, or
they are equally old and `a` is pinned while `b` is not. -/
theorem C1_default_ordering (a b : Article) :
    articleBefore a b = true ↔
      (b.time_create < a.time_create ∨
        (a.time_create = b.time_create ∧ a.fixed = true ∧ b.fixed = false)) := by
  unfold articleBefore articleCmp cmpDesc boolVal
  rcases Nat.lt_trichotomy a.time_create b.time_create with h | h | h
  · have h1 : compare b.time_create a.time_create = Ordering.gt :=
      compare_gt_iff_gt.mpr h
    have h2 : ¬ b.time_create < a.time_create := Nat.not_lt.mpr (Nat.le_of_lt h)
    have h3 : a.time_create ≠ b.time_create := Nat.ne_of_lt h
    simp [h1, h2, h3]
    decide
  · have hc : compare b.time_create b.time_create = Ordering.eq :=
      compare_eq_iff_eq.mpr rfl
    cases hfa : a.fixed <;> cases hfb : b.fixed <;>
      simp [h, hfa, hfb, hc] <;> decide
  · have h1 : compare b.time_create a.time_create = Ordering.lt :=
      compare_lt_iff_lt.mpr h
    simp [h1, h]
    decide

/-- C2: both `ArticleManager` policies return exactly the stored articles
whose status is `published`, and an article with status `draft` appears in
neither result set. -/
theorem C2_published_filter (store : List Article) (a : Article) :
    (a ∈ ArticleManager.all store ↔ a ∈ store ∧ a.status = "published") ∧
    (a ∈ ArticleManager.detail store ↔ a ∈ store ∧ a.status = "published") ∧
    (a.status = "draft" →
      a ∉ ArticleManager.all store ∧ a ∉ ArticleManager.detail store) := by
  have hmem : ∀ s : List Article,
      a ∈ s.filter isPublished ↔ a ∈ s ∧ a.status = "published" := by
    intro s
    simp [List.mem_filter, isPublished]
  refine ⟨hmem store, hmem store, ?_⟩
  intro hdraft
  constructor
  · intro hin
    have := ((hmem store).mp hin).2
    rw [hdraft] at this
    exact absurd this (by decide)
  · intro hin
    have := ((hmem store).mp hin).2
    rw [hdraft] at this
    exact absurd this (by decide)

/-- C2 witness: with one published and one draft article stored, the draft
article is excluded from both query policies. -/
theorem C2_published_filter_witness :
    (Article.mk 2 "d" "d" "draft" 1 false 1) ∉
      ArticleManager.all [Article.mk 1 "p" "p" "published" 1 false 1,
        Article.mk 2 "d" "d" "draft" 1 false 1] ∧
    (Article.mk 2 "d" "d" "draft" 1 false 1) ∉
      ArticleManager.detail [Article.mk 1 "p" "p" "published" 1 false 1,
        Article.mk 2 "d" "d" "draft" 1 false 1] :=
  (C2_published_filter
    [Article.mk 1 "p" "p" "published" 1 false 1,
      Article.mk 2 "d" "d" "draft" 1 false 1]
    (Article.mk 2 "d" "d" "draft" 1 false 1)).2.2 rfl

/-- C3: a successful `Article.save` appends a row whose slug is non-empty
and occurs in the resulting store exactly once (it collides with no
previously stored slug), and for an article arriving with a blank slug the
save always succeeds, deriving such a slug from the title. -/
theorem C3_slug_nonempty_unique (store : List Article) (a : Article) :
    (∀ store', Article.save store a = some store' →
      ∃ a', store' = store ++ [a'] ∧ a'.slug ≠ "" ∧
        a'.slug ∉ store.map Article.slug ∧
        ((store'.map Article.slug).count a'.slug = 1)) ∧
    (a.slug = "" → ∃ store', Article.save store a = some store') := by
  constructor
  · intro store' hsave
    unfold Article.save at hsave
    by_cases hs : a.slug = ""
    · rw [if_pos hs] at hsave
      obtain ⟨heq, hnm⟩ := insertArticle_some hsave
      subst heq
      exact ⟨_, rfl, unique_slugify_ne_empty _ _, hnm,
        count_append_singleton hnm⟩
    · rw [if_neg hs] at hsave
      obtain ⟨heq, hnm⟩ := insertArticle_some hsave
      subst heq
      exact ⟨a, rfl, hs, hnm, count_append_singleton hnm⟩
  · intro hs
    unfold Article.save
    rw [if_pos hs]
    exact ⟨_, insertArticle_of_not_mem
      (unique_slugify_not_mem (store.map Article.slug) a.title)⟩

/-- C3 witness: saving an article with a blank slug into a store already
holding slug "hello" succeeds. -/
theorem C3_slug_nonempty_unique_witness :
    ∃ store', Article.save [Article.mk 1 "hello" "hello" "published" 1 false 1]
      (Article.mk 2 "hello" "" "published" 2 false 1) = some store' :=
  (C3_slug_nonempty_unique
    [Article.mk 1 "hello" "hello" "published" 1 false 1]
    (Article.mk 2 "hello" "" "published" 2 false 1)).2 rfl

/-- C9: `Article.save` on an article whose slug is already non-empty stores
the row exactly as given whenever it completes: the slug and every other
field are unchanged, since slug derivation runs only for a blank slug. -/
theorem C9_save_keeps_existing_slug (store : List Article) (a : Article)
    (h : a.slug ≠ "") :
    ∀ store', Article.save store a = some store' → store' = store ++ [a] := by
  intro store' hsave
  unfold Article.save at hsave
  rw [if_neg h] at hsave
  exact (insertArticle_some hsave).1

/-- C9 witness: an article that already carries slug "kept" is stored
exactly as given. -/
theorem C9_save_keeps_existing_slug_witness :
    [Article.mk 1 "t" "kept" "published" 1 false 1] =
      [] ++ [Article.mk 1 "t" "kept" "published" 1 false 1] :=
  C9_save_keeps_existing_slug [] (Article.mk 1 "t" "kept" "published" 1 false 1)
    (by decide) [Article.mk 1 "t" "kept" "published" 1 false 1] (by decide)

theorem ratingConflict_iff (store : List Rating) (r : Rating) :
    ratingConflict store r = true ↔
      ∃ s ∈ store, s.article = r.article ∧ s.ip_address = r.ip_address := by
  unfold ratingConflict
  simp [List.any_eq_true, Bool.and_eq_true]

/-- C4: inserting a rating whose `(article, ip_address)` pair is already
taken fails and leaves the stored ratings unchanged, inserting one for a
fresh pair appends exactly that row, and a store satisfying the
one-row-per-pair invariant still satisfies it after any successful
insertion. -/
theorem C4_rating_unique_pair (store : List Rating) (r : Rating) :
    ((∃ s ∈ store, s.article = r.article ∧ s.ip_address = r.ip_address) →
      insertRating store r = none) ∧
    ((¬ ∃ s ∈ store, s.article = r.article ∧ s.ip_address = r.ip_address) →
      insertRating store r = some (store ++ [r])) ∧
    (atMostOnePerPair store → ∀ store',
      insertRating store r = some store' → atMostOnePerPair store') := by
  refine ⟨?_, ?_, ?_⟩
  · intro hex
    unfold insertRating
    rw [if_pos ((ratingConflict_iff store r).mpr hex)]
  · intro hnex
    unfold insertRating
    rw [if_neg ?_]
    intro hc
    exact hnex ((ratingConflict_iff store r).mp hc)
  · intro hinv store' hins
    unfold insertRating at hins
    by_cases hc : ratingConflict store r = true
    · rw [if_pos hc] at hins
      exact absurd hins (by simp)
    · rw [if_neg hc] at hins
      rw [← Option.some.inj hins]
      unfold atMostOnePerPair
      rw [List.pairwise_append]
      refine ⟨hinv, List.pairwise_singleton _ _, ?_⟩
      intro s hs r' hr'
      rw [List.mem_singleton.mp hr']
      by_contra hcon
      push_neg at hcon
      exact hc ((ratingConflict_iff store r).mpr
        ⟨s, hs, hcon.1, hcon.2⟩)

/-- C4 witness: with a rating from IP "1.2.3.4" on article 1 stored, a
second rating from the same pair is rejected, while the same IP on article 2
is accepted. -/
theorem C4_rating_unique_pair_witness :
    insertRating [Rating.mk 1 1 none 1 "1.2.3.4" 1]
      (Rating.mk 2 1 none 1 "1.2.3.4" 2) = none ∧
    insertRating [Rating.mk 1 1 none 1 "1.2.3.4" 1]
      (Rating.mk 3 2 none 1 "1.2.3.4" 3) =
      some [Rating.mk 1 1 none 1 "1.2.3.4" 1,
        Rating.mk 3 2 none 1 "1.2.3.4" 3] :=
  ⟨(C4_rating_unique_pair [Rating.mk 1 1 none 1 "1.2.3.4" 1]
      (Rating.mk 2 1 none 1 "1.2.3.4" 2)).1
      ⟨Rating.mk 1 1 none 1 "1.2.3.4" 1, by simp, rfl, rfl⟩,
    (C4_rating_unique_pair [Rating.mk 1 1 none 1 "1.2.3.4" 1]
      (Rating.mk 3 2 none 1 "1.2.3.4" 3)).2.1 (by decide)⟩

/-- C5: the aggregate rating of an article is the arithmetic sum of the
`value` fields of the rating rows referencing it, recomputed from the
current store: it is 0 with no ratings, grows by the value of each rating
added for the article, ignores ratings of other articles, and evaluates to
1 on the ratings [+1, +1, -1]. -/
theorem C5_get_sum_rating (ratings : List Rating) (a : Article) (r : Rating) :
    Article.get_sum_rating [] a = 0 ∧
    (r.article = a.id →
      Article.get_sum_rating (ratings ++ [r]) a =
        Article.get_sum_rating ratings a + r.value) ∧
    (r.article ≠ a.id →
      Article.get_sum_rating (ratings ++ [r]) a =
        Article.get_sum_rating ratings a) ∧
    Article.get_sum_rating
      [Rating.mk 1 10 none 1 "a" 1, Rating.mk 2 10 none 1 "b" 2,
        Rating.mk 3 10 none (-1) "c" 3]
      (Article.mk 10 "t" "s" "published" 1 false 1) = 1 := by
  refine ⟨rfl, ?_, ?_, by decide⟩
  · intro h
    unfold Article.get_sum_rating
    rw [List.filter_append, List.map_append, List.sum_append]
    simp [h]
  · intro h
    unfold Article.get_sum_rating
    rw [List.filter_append, List.map_append, List.sum_append]
    simp [h]

/-- C5 witness: appending a -1 rating for article 10 to the example store
drops its aggregate from 1 to 0. -/
theorem C5_get_sum_rating_witness :
    Article.get_sum_rating
      ([Rating.mk 1 10 none 1 "a" 1] ++ [Rating.mk 4 10 none (-1) "d" 4])
      (Article.mk 10 "t" "s" "published" 1 false 1) =
      Article.get_sum_rating [Rating.mk 1 10 none 1 "a" 1]
        (Article.mk 10 "t" "s" "published" 1 false 1) + (-1) :=
  (C5_get_sum_rating [Rating.mk 1 10 none 1 "a" 1]
    (Article.mk 10 "t" "s" "published" 1 false 1)
    (Rating.mk 4 10 none (-1) "d" 4)).2.1 rfl

/-- C7: after deleting an article, no comment, rating or view row that
referenced it remains, and every row referencing a different article is
kept: membership in each resulting table is membership in the old table
together with referencing a different article. -/
theorem C7_article_cascade (arts : List Article) (comments : List Comment)
    (ratings : List Rating) (views : List ViewCount) (i : Nat)
    (c : Comment) (r : Rating) (v : ViewCount) :
    (c ∈ (deleteArticleCascade arts comments ratings views i).2.1 ↔
      c ∈ comments ∧ c.article ≠ i) ∧
    (r ∈ (deleteArticleCascade arts comments ratings views i).2.2.1 ↔
      r ∈ ratings ∧ r.article ≠ i) ∧
    (v ∈ (deleteArticleCascade arts comments ratings views i).2.2.2 ↔
      v ∈ views ∧ v.article ≠ i) := by
  unfold deleteArticleCascade
  refine ⟨?_, ?_, ?_⟩ <;> simp [List.mem_filter]

/-- C8: in the default ordering of comments (`['-time_create']`), of two
sibling comments (same article, same parent) the one created later precedes
the one created earlier. -/
theorem C8_sibling_comments_newest_first (a b : Comment)
    (hart : a.article = b.article) (hpar : a.parent = b.parent)
    (h : b.time_create < a.time_create) :
    commentBefore a b = true := by
  unfold commentBefore commentCmp cmpDesc
  rw [compare_lt_iff_lt.mpr h]
  rfl

/-- C8 witness: a sibling comment created at time 2 precedes one created at
time 1. -/
theorem C8_sibling_comments_newest_first_witness :
    commentBefore (Comment.mk 2 1 1 "later" 2 "published" none)
      (Comment.mk 1 1 1 "earlier" 1 "published" none) = true :=
  C8_sibling_comments_newest_first
    (Comment.mk 2 1 1 "later" 2 "published" none)
    (Comment.mk 1 1 1 "earlier" 1 "published" none) rfl rfl (by decide)

/-- C10: an article created without an explicit status has status
`published` and is therefore in both `ArticleManager` result sets as soon
as it is stored, and a comment created without an explicit status has
status `published`. -/
theorem C10_status_defaults (i : Nat) (title slug : String) (t : Nat)
    (fx : Bool) (cat : Nat) (ci art auth : Nat) (content : String)
    (ct : Nat) (par : Option Nat) (store : List Article)
    (hmem : mkArticleDefault i title slug t fx cat ∈ store) :
    (mkArticleDefault i title slug t fx cat).status = "published" ∧
    mkArticleDefault i title slug t fx cat ∈ ArticleManager.all store ∧
    mkArticleDefault i title slug t fx cat ∈ ArticleManager.detail store ∧
    (mkCommentDefault ci art auth content ct par).status = "published" := by
  refine ⟨rfl, ?_, ?_, rfl⟩ <;>
    exact List.mem_filter.mpr ⟨hmem, by rfl⟩

/-- C10 witness: a concrete article built with the default status appears in
both query policies once stored. -/
theorem C10_status_defaults_witness :
    (mkArticleDefault 1 "t" "s" 1 false 1).status = "published" ∧
    mkArticleDefault 1 "t" "s" 1 false 1 ∈
      ArticleManager.all [mkArticleDefault 1 "t" "s" 1 false 1] ∧
    mkArticleDefault 1 "t" "s" 1 false 1 ∈
      ArticleManager.detail [mkArticleDefault 1 "t" "s" 1 false 1] ∧
    (mkCommentDefault 1 1 1 "c" 1 none).status = "published" :=
  C10_status_defaults 1 "t" "s" 1 false 1 1 1 1 "c" 1 none
    [mkArticleDefault 1 "t" "s" 1 false 1] (by simp)

theorem parentIn_true_iff (s : List Nat) (c : Category) :
    parentIn s c = true ↔ ∃ p, c.parent = some p ∧ p ∈ s := by
  unfold parentIn
  cases hp : c.parent with
  | none => simp
  | some p =>
    simp only [Option.some.injEq]
    constructor
    · intro h
      exact ⟨p, rfl, (contains_true_iff s p).mp h⟩
    · rintro ⟨q, rfl, hq⟩
      exact (contains_true_iff s _).mpr hq

theorem subset_expandDoomed (cats : List Category) (s : List Nat) :
    s ⊆ expandDoomed cats s :=
  List.subset_append_left _ _

theorem expandDoomed_subset (cats : List Category) (s : List Nat) (i : Nat)
    (hs : s ⊆ i :: cats.map Category.id) :
    expandDoomed cats s ⊆ i :: cats.map Category.id := by
  intro x hx
  rcases List.mem_append.mp hx with hx | hx
  · exact hs hx
  · rcases List.mem_map.mp (List.mem_dedup.mp hx) with ⟨c, hc, rfl⟩
    exact List.mem_cons_of_mem _
      (List.mem_map_of_mem _ (List.mem_filter.mp hc).1)

theorem nodup_expandDoomed (cats : List Category) (s : List Nat)
    (hs : s.Nodup) : (expandDoomed cats s).Nodup := by
  unfold expandDoomed
  rw [List.nodup_append]
  refine ⟨hs, List.nodup_dedup _, ?_⟩
  intro x hx hx'
  rcases List.mem_map.mp (List.mem_dedup.mp hx') with ⟨c, hc, heq⟩
  have hcond := (List.mem_filter.mp hc).2
  rw [Bool.and_eq_true, Bool.not_eq_true'] at hcond
  have : s.contains c.id = true := (contains_true_iff s c.id).mpr (heq ▸ hx)
  rw [hcond.2] at this
  cases this

theorem iterDoomed_of_fix (cats : List Category) (n : Nat) (s : List Nat)
    (h : expandDoomed cats s = s) : iterDoomed cats n s = s := by
  induction n with
  | zero => rfl
  | succ n ih =>
    have hstep : iterDoomed cats (n + 1) s =
        iterDoomed cats n (expandDoomed cats s) := rfl
    rw [hstep, h, ih]

theorem expandDoomed_length (cats : List Category) (s : List Nat) :
    expandDoomed cats s = s ∨
      s.length + 1 ≤ (expandDoomed cats s).length := by
  unfold expandDoomed
  cases hnew : ((cats.filter
      (fun c => parentIn s c && !(s.contains c.id))).map Category.id).dedup with
  | nil => left; simp
  | cons y ys => right; simp [List.length_append]

theorem iterDoomed_fix (cats : List Category) (i : Nat) :
    ∀ (fuel : Nat) (s : List Nat), s.Nodup →
      s ⊆ i :: cats.map Category.id →
      (i :: cats.map Category.id).length ≤ s.length + fuel →
      expandDoomed cats (iterDoomed cats fuel s) =
        iterDoomed cats fuel s := by
  intro fuel
  induction fuel with
  | zero =>
    intro s hnd hsub hlen
    show expandDoomed cats s = s
    have hcard : (i :: cats.map Category.id).toFinset.card ≤
        s.toFinset.card := by
      have h1 : (i :: cats.map Category.id).toFinset.card ≤
          (i :: cats.map Category.id).length :=
        List.toFinset_card_le (i :: cats.map Category.id)
      have h2 := List.toFinset_card_of_nodup hnd
      omega
    have hsubF : s.toFinset ⊆ (i :: cats.map Category.id).toFinset := by
      intro x hx
      rw [List.mem_toFinset] at hx ⊢
      exact hsub hx
    have hsetEq := Finset.eq_of_subset_of_card_le hsubF hcard
    have hUS : ∀ x ∈ i :: cats.map Category.id, x ∈ s := by
      intro x hx
      rw [← List.mem_toFinset, ← hsetEq, List.mem_toFinset] at hx
      exact hx
    unfold expandDoomed
    rw [List.append_right_eq_self]
    rw [List.eq_nil_iff_forall_not_mem]
    intro x hx
    rcases List.mem_map.mp (List.mem_dedup.mp hx) with ⟨c, hc, heq⟩
    have hcm := (List.mem_filter.mp hc).1
    have hcond := (List.mem_filter.mp hc).2
    rw [Bool.and_eq_true, Bool.not_eq_true'] at hcond
    have hin : c.id ∈ s :=
      hUS c.id (List.mem_cons_of_mem _ (List.mem_map_of_mem _ hcm))
    have : s.contains c.id = true := (contains_true_iff s c.id).mpr hin
    rw [hcond.2] at this
    cases this
  | succ n ih =>
    intro s hnd hsub hlen
    rcases expandDoomed_length cats s with hfix | hgrow
    · rw [iterDoomed_of_fix cats (n + 1) s hfix]
      exact hfix
    · have hstep : iterDoomed cats (n + 1) s =
          iterDoomed cats n (expandDoomed cats s) := rfl
      rw [hstep]
      exact ih (expandDoomed cats s) (nodup_expandDoomed cats s hnd)
        (expandDoomed_subset cats s i hsub) (by omega)

theorem mem_iterDoomed (cats : List Category) :
    ∀ (n : Nat) (s : List Nat), s ⊆ iterDoomed cats n s := by
  intro n
  induction n with
  | zero => intro s x hx; exact hx
  | succ n ih =>
    intro s x hx
    exact ih (expandDoomed cats s) (subset_expandDoomed cats s hx)

theorem mem_doomed_self (cats : List Category) (i : Nat) :
    i ∈ doomedIds cats i :=
  mem_iterDoomed cats (cats.length + 1) [i] (List.mem_singleton_self i)

theorem doomed_fix (cats : List Category) (i : Nat) :
    expandDoomed cats (doomedIds cats i) = doomedIds cats i := by
  apply iterDoomed_fix cats i (cats.length + 1) [i]
  · exact List.nodup_singleton i
  · intro x hx
    rw [List.mem_singleton.mp hx]
    exact List.mem_cons_self i _
  · simp

theorem doomed_closed (cats : List Category) (i : Nat) (c : Category)
    (hc : c ∈ cats) (p : Nat) (hp : c.parent = some p)
    (hpd : p ∈ doomedIds cats i) : c.id ∈ doomedIds cats i := by
  by_contra hnc
  have hncon : (doomedIds cats i).contains c.id = false := by
    cases h : (doomedIds cats i).contains c.id
    · rfl
    · exact absurd ((contains_true_iff _ _).mp h) hnc
  have hfix := doomed_fix cats i
  unfold expandDoomed at hfix
  rw [List.append_right_eq_self] at hfix
  have hmem : c.id ∈ ((cats.filter
      (fun c => parentIn (doomedIds cats i) c &&
        !((doomedIds cats i).contains c.id))).map Category.id).dedup := by
    rw [List.mem_dedup]
    apply List.mem_map_of_mem
    rw [List.mem_filter]
    refine ⟨hc, ?_⟩
    rw [Bool.and_eq_true, Bool.not_eq_true']
    exact ⟨(parentIn_true_iff _ c).mpr ⟨p, hp, hpd⟩, hncon⟩
  rw [hfix] at hmem
  cases hmem

theorem desc_mem_doomed (cats : List Category) (i : Nat) (d : Nat)
    (h : Desc cats i d) : d ∈ doomedIds cats i := by
  induction h with
  | child c hc hp =>
    exact doomed_closed cats i c hc i hp (mem_doomed_self cats i)
  | step c m hd hc hp ih =>
    exact doomed_closed cats i c hc m hp ih

theorem doomed_sound (cats : List Category) (i : Nat) :
    ∀ x ∈ doomedIds cats i, x = i ∨ Desc cats i x := by
  have hstep : ∀ s : List Nat, (∀ x ∈ s, x = i ∨ Desc cats i x) →
      ∀ x ∈ expandDoomed cats s, x = i ∨ Desc cats i x := by
    intro s hs x hx
    rcases List.mem_append.mp hx with hx | hx
    · exact hs x hx
    · rcases List.mem_map.mp (List.mem_dedup.mp hx) with ⟨c, hcf, rfl⟩
      have hcm := (List.mem_filter.mp hcf).1
      have hcond := (List.mem_filter.mp hcf).2
      rw [Bool.and_eq_true] at hcond
      rcases (parentIn_true_iff s c).mp hcond.1 with ⟨p, hp, hps⟩
      rcases hs p hps with rfl | hdesc
      · exact Or.inr (Desc.child c hcm hp)
      · exact Or.inr (Desc.step c p hdesc hcm hp)
  have hiter : ∀ (n : Nat) (s : List Nat),
      (∀ x ∈ s, x = i ∨ Desc cats i x) →
      ∀ x ∈ iterDoomed cats n s, x = i ∨ Desc cats i x := by
    intro n
    induction n with
    | zero => intro s hs; exact hs
    | succ n ih =>
      intro s hs
      exact ih (expandDoomed cats s) (hstep s hs)
  apply hiter (cats.length + 1) [i]
  intro x hx
  rw [List.mem_singleton.mp hx]
  exact Or.inl rfl

/-- C6 counterexample: a category "Tech" (id 1) with child "AI" (id 2),
where a single article references "AI" but no article references "Tech":
the claim says deleting "Tech" must succeed, yet the deletion is rejected,
because the cascade over the subtree hits the protected reference to
"AI". -/
theorem C6_category_delete_counterexample :
    (∀ a ∈ [Article.mk 1 "a" "a" "published" 1 false 2], a.category ≠ 1) ∧
    deleteCategory
      [Category.mk 1 "Tech" "tech" none, Category.mk 2 "AI" "ai" (some 1)]
      [Article.mk 1 "a" "a" "published" 1 false 2] 1 = none := by
  decide

/-- C6 (amended): deleting a category is rejected whenever some article
references it or any of its descendants (leaving the stored categories
unchanged); when no article references the category or any of its
descendants the deletion succeeds, and a successful deletion removes
exactly the category together with all its descendants, keeping every
other category. -/
theorem C6_category_delete (cats : List Category) (arts : List Article)
    (i : Nat) :
    ((∃ a ∈ arts, a.category = i) → deleteCategory cats arts i = none) ∧
    ((∃ a ∈ arts, Desc cats i a.category) →
      deleteCategory cats arts i = none) ∧
    ((¬ ∃ a ∈ arts, (a.category = i ∨ Desc cats i a.category)) →
      ∃ cats', deleteCategory cats arts i = some cats') ∧
    (∀ cats', deleteCategory cats arts i = some cats' →
      (∀ c ∈ cats, (c.id = i ∨ Desc cats i c.id) → c ∉ cats') ∧
      (∀ c ∈ cats, c.id ≠ i → ¬ Desc cats i c.id → c ∈ cats')) := by
  have hnone : ∀ a ∈ arts, a.category ∈ doomedIds cats i →
      deleteCategory cats arts i = none := by
    intro a ha hd
    unfold deleteCategory
    rw [if_pos]
    rw [List.any_eq_true]
    exact ⟨a, ha, (contains_true_iff _ _).mpr hd⟩
  refine ⟨?_, ?_, ?_, ?_⟩
  · rintro ⟨a, ha, rfl⟩
    exact hnone a ha (mem_doomed_self cats a.category)
  · rintro ⟨a, ha, hdesc⟩
    exact hnone a ha (desc_mem_doomed cats i a.category hdesc)
  · intro hno
    have hany : ¬ (arts.any
        (fun a => (doomedIds cats i).contains a.category) = true) := by
      intro h
      rcases List.any_eq_true.mp h with ⟨a, ha, hc⟩
      rcases doomed_sound cats i a.category
        ((contains_true_iff _ _).mp hc) with heq | hdesc
      · exact hno ⟨a, ha, Or.inl heq⟩
      · exact hno ⟨a, ha, Or.inr hdesc⟩
    unfold deleteCategory
    rw [if_neg hany]
    exact ⟨_, rfl⟩
  · intro cats' hdel
    unfold deleteCategory at hdel
    by_cases hany :
        (arts.any (fun a => (doomedIds cats i).contains a.category)) = true
    · rw [if_pos hany] at hdel
      exact absurd hdel (by simp)
    · rw [if_neg hany] at hdel
      have hcats' : cats' =
          cats.filter (fun c => !((doomedIds cats i).contains c.id)) :=
        (Option.some.inj hdel).symm
      constructor
      · intro c hc hdoom hc'
        rw [hcats', List.mem_filter] at hc'
        have hmem : c.id ∈ doomedIds cats i := by
          rcases hdoom with rfl | hdesc
          · exact mem_doomed_self cats c.id
          · exact desc_mem_doomed cats i c.id hdesc
        have := hc'.2
        rw [Bool.not_eq_true'] at this
        rw [(contains_true_iff _ _).mpr hmem] at this
        cases this
      · intro c hc hne hnd
        rw [hcats', List.mem_filter]
        refine ⟨hc, ?_⟩
        rw [Bool.not_eq_true']
        cases hcon : (doomedIds cats i).contains c.id
        · rfl
        · rcases doomed_sound cats i c.id
            ((contains_true_iff _ _).mp hcon) with heq | hdesc
          · exact absurd heq hne
          · exact absurd hdesc hnd

/-- C6 amended-claim witness: with "Tech" (id 1), its child "AI" (id 2) and
an unrelated "Other" (id 3) stored, and one article referencing only
"Other", deleting "Tech" succeeds, and the resulting store no longer holds
the descendant "AI". -/
theorem C6_category_delete_witness :
    (∃ cats', deleteCategory
      [Category.mk 1 "Tech" "tech" none, Category.mk 2 "AI" "ai" (some 1),
        Category.mk 3 "Other" "other" none]
      [Article.mk 1 "a" "a" "published" 1 false 3] 1 = some cats') ∧
    Category.mk 2 "AI" "ai" (some 1) ∉
      [Category.mk 3 "Other" "other" none] ∧
    deleteCategory
      [Category.mk 1 "Tech" "tech" none, Category.mk 2 "AI" "ai" (some 1),
        Category.mk 3 "Other" "other" none]
      [Article.mk 1 "a" "a" "published" 1 false 3] 1 =
      some [Category.mk 3 "Other" "other" none] :=
  ⟨(C6_category_delete
      [Category.mk 1 "Tech" "tech" none, Category.mk 2 "AI" "ai" (some 1),
        Category.mk 3 "Other" "other" none]
      [Article.mk 1 "a" "a" "published" 1 false 3] 1).2.2.1 (by
        rintro ⟨a, ha, hcase⟩
        rw [List.mem_singleton.mp ha] at hcase
        rcases hcase with heq | hdesc
        · exact absurd heq (by decide)
        · exact absurd (desc_mem_doomed
            [Category.mk 1 "Tech" "tech" none,
              Category.mk 2 "AI" "ai" (some 1),
              Category.mk 3 "Other" "other" none] 1 _ hdesc) (by decide)),
    ((C6_category_delete
      [Category.mk 1 "Tech" "tech" none, Category.mk 2 "AI" "ai" (some 1),
        Category.mk 3 "Other" "other" none]
      [Article.mk 1 "a" "a" "published" 1 false 3] 1).2.2.2
      [Category.mk 3 "Other" "other" none] (by decide)).1
      (Category.mk 2 "AI" "ai" (some 1)) (by simp)
      (Or.inr (Desc.child (Category.mk 2 "AI" "ai" (some 1))
        (by simp) rfl)),
    by decide⟩
